import Mathlib

/-!
Verification development for the tag-discovery core of
yet-another-cloudwatch-exporter (file aws_tags.go).

The Go code is shallowly embedded: Go pointers to strings become
Option String (none = nil); a Go runtime panic (nil dereference,
out-of-range slice index) or a call to log.Fatal is modelled by an
Option-returning function producing none; the paginated AWS SDK
calls are modelled by an explicit list of pages, each page either a
successfully fetched page or a transport error that ends the
pagination.  Helpers that the source file calls but that live in
other files of the repository (tag, job, stringInSlice, promString,
promStringTag, filterThroughTags, PrometheusMetric) are modelled
from the specification and marked as such in their doc comments.
-/

set_option autoImplicit false

universe u v

/-! ## String helpers (Go strings.Split / strings.Contains semantics) -/

/-- Split a list of characters on a separator character, Go
strings.Split semantics for a one-character separator: the empty
input yields one empty field, and n occurrences of the separator
yield n+1 fields. -/
def splitOnChar (sep : Char) : List Char → List (List Char)
  | [] => [[]]
  | c :: cs =>
    let r := splitOnChar sep cs
    if c = sep then [] :: r
    else
      match r with
      | [] => [[c]]
      | h :: t => (c :: h) :: t

/-- Go strings.Split(s, sep) for a one-character separator. -/
def goSplit (s : String) (sep : Char) : List String :=
  (splitOnChar sep s.data).map (fun l => String.mk l)

/-- Test whether the first list is an initial segment of the second. -/
def chStarts : List Char → List Char → Bool
  | [], _ => true
  | _ :: _, [] => false
  | a :: as, b :: bs => a = b && chStarts as bs

/-- Test whether the first list occurs contiguously inside the second. -/
def chSub (pat : List Char) : List Char → Bool
  | [] => chStarts pat []
  | l@(_ :: rest) => chStarts pat l || chSub pat rest

/-- Go strings.Contains(s, pat). -/
def goContains (s pat : String) : Bool :=
  chSub pat.data s.data

/-! ## Data model -/

/-- Modelled from the spec: a tag is a pair of a Key and a Value
(the struct itself is declared outside the given source file). -/
structure tag where
  Key : String
  Value : String
deriving DecidableEq, Repr

/-- Modelled from the spec: a Job is a resource-type key together
with the caller-supplied required tag matchers (the struct is
declared outside the given source file; only these two fields are
used by the source). -/
structure job where
  «Type» : String
  SearchTags : List tag
deriving DecidableEq, Repr

/-- Normalized resource-tag record produced by every discovery path
(struct tagsData in the source).  The Go fields are pointers;
Option String models a possibly nil pointer. -/
structure tagsData where
  ID : Option String
  Matcher : Option String
  Tags : List tag
  Service : Option String
  Region : Option String
deriving DecidableEq, Repr

/-- Modelled from the spec: stringInSlice is a membership test by
value (declared outside the given source file). -/
def stringInSlice (s : String) (l : List String) : Bool :=
  decide (s ∈ l)

/-- Modelled from the spec: filterThroughTags (declared outside the
given source file) returns true iff every required Key/Value matcher
is satisfied by some tag of the record with equal key and equal
value; an empty matcher set always passes. -/
def tagsData.filterThroughTags (resource : tagsData) (filterTags : List tag) : Bool :=
  filterTags.all (fun ft =>
    resource.Tags.any (fun t => decide (t.Key = ft.Key) && decide (t.Value = ft.Value)))

deriving instance DecidableEq for Except

/-! ## Provider page shapes (the AWS SDK output types used by the source).
Tag keys and values inside provider pages are dereferenced
unconditionally by the source, so they are modelled as plain
strings; pointers that the source stores or compares without
dereferencing stay Option String. -/

/-- One entry of a GetResources page: a resource ARN pointer (stored
verbatim, never dereferenced on this path) and its tags. -/
structure resourceTagMapping where
  ResourceARN : Option String
  Tags : List tag
deriving DecidableEq, Repr

/-- One page of the resource-group tagging API. -/
structure getResourcesOutput where
  ResourceTagMappingList : List resourceTagMapping
deriving DecidableEq, Repr

/-- One autoscaling group of a DescribeAutoScalingGroups page; the
ARN is dereferenced immediately by the source. -/
structure autoScalingGroup where
  AutoScalingGroupARN : String
  Tags : List tag
deriving DecidableEq, Repr

/-- One page of the autoscaling listing API. -/
structure describeAutoScalingGroupsOutput where
  AutoScalingGroups : List autoScalingGroup
deriving DecidableEq, Repr

/-- One REST API of a GetRestApis page; Id is dereferenced for
comparison, Name is stored without dereferencing, so both nils are
observable and both fields stay Option String. -/
structure restApi where
  Id : Option String
  Name : Option String
deriving DecidableEq, Repr

/-- Accumulated output of the bulk REST-API listing. -/
structure getRestApisOutput where
  Items : List restApi
deriving DecidableEq, Repr

/-- One transit-gateway attachment of a page; both identifiers are
dereferenced immediately by the source. -/
structure transitGatewayAttachment where
  TransitGatewayId : String
  TransitGatewayAttachmentId : String
  Tags : List tag
deriving DecidableEq, Repr

/-- One page of the EC2 transit-gateway-attachment listing API. -/
structure describeTransitGatewayAttachmentsOutput where
  TransitGatewayAttachments : List transitGatewayAttachment
deriving DecidableEq, Repr

/-- The four provider clients of struct tagsInterface, each modelled
by the sequence of pages the paginated call would deliver: an
element is either a fetched page or a transport error that ends the
pagination at that point. -/
structure tagsInterface where
  client : List (Except String getResourcesOutput)
  asgClient : List (Except String describeAutoScalingGroupsOutput)
  apiGatewayClient : List (Except String getRestApisOutput)
  ec2Client : List (Except String describeTransitGatewayAttachmentsOutput)
deriving DecidableEq, Repr

/-! ## The paginated-call drivers.
The AWS SDK XxxPagesWithContext helpers invoke a callback once per
fetched page; pagination continues while the callback returns true
and more pages exist, and a transport error ends the call returning
that error, keeping whatever the callback had already accumulated
in its captured state. -/

/-- Driver for a callback that cannot crash: thread the callback
state through the delivered pages, stopping at the first transport
error (returned as some e), when the callback signals stop, or when
the pages run out. -/
def runPages {σ π ε : Type u} (f : σ → π → σ × Bool) :
    List (Except ε π) → σ → σ × Option ε
  | [], s => (s, none)
  | Except.error e :: _, s => (s, some e)
  | Except.ok p :: rest, s =>
    let r := f s p
    if r.2 && !rest.isEmpty then runPages f rest r.1 else (r.1, none)

/-- Driver for a callback that can crash (none = Go runtime panic
inside the callback, which aborts the whole call). -/
def runPagesP {σ π ε : Type u} (f : σ → π → Option (σ × Bool)) :
    List (Except ε π) → σ → Option (σ × Option ε)
  | [], s => some (s, none)
  | Except.error e :: _, s => some (s, some e)
  | Except.ok p :: rest, s =>
    match f s p with
    | none => none
    | some r => if r.2 && !rest.isEmpty then runPagesP f rest r.1 else some (r.1, none)

/-- Shape shared by the page callbacks of the source: increment the
page counter, fold the page into the accumulated resources, and ask
for the next page while the page counter is below the cap. -/
def pagedCallback {π α : Type} (cap : Nat) (g : π → List α → List α) :
    (Nat × List α) → π → (Nat × List α) × Bool :=
  fun s page => ((s.1 + 1, g page s.2), decide (s.1 + 1 < cap))

/-- Variant of pagedCallback for a page fold that can crash. -/
def pagedCallbackP {π α : Type} (cap : Nat) (g : π → List α → Option (List α)) :
    (Nat × List α) → π → Option ((Nat × List α) × Bool) :=
  fun s page => (g page s.2).map (fun res => ((s.1 + 1, res), decide (s.1 + 1 < cap)))

/-- Fold a crashing step function over a list, short-circuiting at
the first crash (the Go pattern of a loop whose body can panic). -/
def foldOrPanic {α β : Type} (f : β → α → Option β) : List α → β → Option β
  | [], b => some b
  | a :: l, b =>
    match f b a with
    | none => none
    | some b2 => foldOrPanic f l b2

/-- Map a crashing function over a list, short-circuiting at the
first crash (the Go pattern of a loop that appends one built element
per iteration and whose body can panic). -/
def mapOrPanic {α β : Type} (f : α → Option β) : List α → Option (List β)
  | [] => some []
  | a :: l =>
    match f a with
    | none => none
    | some b => (mapOrPanic f l).map (fun bs => b :: bs)

/-! ## Discovery strategies -/

/-- ASG identifier reconstruction (lines 203-204 of the source):
split the native ARN on a colon and reassemble fields 1, 3, 4 and 7
into the canonical tag-search-API shape.  An out-of-range index into
the split result is a Go runtime panic, modelled as none. -/
def reconstructAsgID (arn : String) : Option String :=
  let parts := goSplit arn ':'
  match parts.get? 1, parts.get? 3, parts.get? 4, parts.get? 7 with
  | some p1, some p3, some p4, some p7 =>
      some ("arn:" ++ p1 ++ ":autoscaling:" ++ p3 ++ ":" ++ p4 ++ ":" ++ p7)
  | _, _, _, _ => none

/-- Body of the generic discovery page callback (lines 138-153 of
the source): build a TagRecord per mapping, taking the ARN pointer
verbatim as the ID, and keep it when it passes the tag filter. -/
def genericPageFold (j : job) (region : String)
    (page : getResourcesOutput) (acc : List tagsData) : List tagsData :=
  page.ResourceTagMappingList.foldl (fun a m =>
    let resource : tagsData :=
      { ID := m.ResourceARN, Matcher := none, Tags := m.Tags,
        Service := some j.Type, Region := some region }
    if resource.filterThroughTags j.SearchTags then a ++ [resource] else a) acc

/-- Body of the ASG discovery page callback (lines 199-216 of the
source); the ARN reconstruction can crash, so the fold is monadic in
Option. -/
def asgPageFold (j : job) (region : String)
    (page : describeAutoScalingGroupsOutput) (acc : List tagsData) : Option (List tagsData) :=
  foldOrPanic (fun a asg =>
    (reconstructAsgID asg.AutoScalingGroupARN).map (fun id =>
      let resource : tagsData :=
        { ID := some id, Matcher := none, Tags := asg.Tags,
          Service := some j.Type, Region := some region }
      if resource.filterThroughTags j.SearchTags then a ++ [resource] else a))
    page.AutoScalingGroups acc

/-- Body of the transit-gateway-attachment page callback (lines
246-261 of the source): the ID is synthesized by joining the two
native identifiers with a slash. -/
def tgwPageFold (j : job) (region : String)
    (page : describeTransitGatewayAttachmentsOutput) (acc : List tagsData) : List tagsData :=
  page.TransitGatewayAttachments.foldl (fun a t =>
    let resource : tagsData :=
      { ID := some (t.TransitGatewayId ++ "/" ++ t.TransitGatewayAttachmentId),
        Matcher := none, Tags := t.Tags,
        Service := some j.Type, Region := some region }
    if resource.filterThroughTags j.SearchTags then a ++ [resource] else a) acc

/-- getTaggedAutoscalingGroups (lines 191-219 of the source):
paginated ASG listing with a 100-page cap; none models the Go
runtime panic of the ARN reconstruction. -/
def tagsInterface.getTaggedAutoscalingGroups (ifc : tagsInterface) (j : job)
    (region : String) : Option (List tagsData × Option String) :=
  (runPagesP (pagedCallbackP 100 (asgPageFold j region)) ifc.asgClient (0, [])).map
    (fun r => (r.1.2, r.2))

/-- Maximum number of pages requested by the bulk REST-API listing
(constant maxPages of the source). -/
def maxPages : Nat := 10

/-- getTaggedApiGateway (lines 222-236 of the source): accumulate
the items of every delivered page into one output, asking for the
next page while pageNum is at most maxPages. -/
def tagsInterface.getTaggedApiGateway (ifc : tagsInterface) :
    getRestApisOutput × Option String :=
  let r := runPages
    (fun s page => ((s.1 + 1, s.2 ++ page.Items), decide (s.1 + 1 ≤ maxPages)))
    ifc.apiGatewayClient (0, [])
  ({ Items := r.1.2 }, r.2)

/-- getTaggedTransitGatewayAttachments (lines 238-264 of the
source): paginated EC2 listing with a 100-page cap. -/
def tagsInterface.getTaggedTransitGatewayAttachments (ifc : tagsInterface) (j : job)
    (region : String) : List tagsData × Option String :=
  let r := runPages (pagedCallback 100 (tgwPageFold j region)) ifc.ec2Client (0, [])
  (r.1.2, r.2)

/-- Resource type registry (lines 90-121 of the source): the static
map from a resource-type key to the provider tag-filter strings. -/
def allResourceTypesFilters : List (String × List String) :=
  [ ("alb", ["elasticloadbalancing:loadbalancer/app", "elasticloadbalancing:targetgroup"]),
    ("apigateway", ["apigateway"]),
    ("appsync", ["appsync"]),
    ("cf", ["cloudfront"]),
    ("dynamodb", ["dynamodb:table"]),
    ("ebs", ["ec2:volume"]),
    ("ec", ["elasticache:cluster"]),
    ("ec2", ["ec2:instance"]),
    ("ecs-svc", ["ecs:cluster", "ecs:service"]),
    ("ecs-containerinsights", ["ecs:cluster", "ecs:service"]),
    ("efs", ["elasticfilesystem:file-system"]),
    ("elb", ["elasticloadbalancing:loadbalancer"]),
    ("emr", ["elasticmapreduce:cluster"]),
    ("es", ["es:domain"]),
    ("firehose", ["firehose"]),
    ("fsx", ["fsx:file-system"]),
    ("kinesis", ["kinesis:stream"]),
    ("lambda", ["lambda:function"]),
    ("ngw", ["ec2:natgateway"]),
    ("nlb", ["elasticloadbalancing:loadbalancer/net"]),
    ("rds", ["rds:db"]),
    ("redshift", ["redshift:cluster"]),
    ("r53r", ["route53resolver"]),
    ("s3", ["s3"]),
    ("sfn", ["states"]),
    ("sns", ["sns"]),
    ("sqs", ["sqs"]),
    ("tgw", ["ec2:transit-gateway"]),
    ("vpn", ["ec2:vpn-connection"]),
    ("kafka", ["kafka:cluster"]) ]

/-- Scan of the REST-API listing performed per record by the
enrichment loop (lines 171-175 of the source): every item whose Id
equals the embedded REST-API id overwrites the Matcher with its Name
pointer (possibly nil), so the last matching item wins; dereferencing
a nil Id is a Go runtime panic, modelled as none. -/
def findMatcher (restApiId : String) (acc : Option String) :
    List restApi → Option (Option String)
  | [] => some acc
  | g :: rest =>
    match g.Id with
    | none => none
    | some gid => findMatcher restApiId (if gid = restApiId then g.Name else acc) rest

/-- Enrichment decision for one record (lines 166-181 of the
source): none models a Go runtime panic, some none a dropped record,
some (some r) a kept record. -/
def enrichOne (items : List restApi) (r : tagsData) : Option (Option tagsData) :=
  match r.ID with
  | none => none
  | some id =>
    if goContains id "/restapis" then
      match (goSplit id '/').get? 2 with
      | none => none
      | some restApiId =>
        match findMatcher restApiId r.Matcher items with
        | none => none
        | some none => some none
        | some (some nm) => some (some { r with Matcher := some nm })
    else some none

/-- API-gateway enrichment pass over the generically discovered
records (lines 165-183 of the source), keeping the source order. -/
def apiGatewayFilter (items : List restApi) : List tagsData → Option (List tagsData)
  | [] => some []
  | r :: rest =>
    match enrichOne items r with
    | none => none
    | some o =>
      match apiGatewayFilter items rest with
      | none => none
      | some rs =>
        match o with
        | none => some rs
        | some r2 => some (r2 :: rs)

/-- tagsInterface.get (lines 82-187 of the source): dispatch on the
resource-type key, run the generic paginated discovery, and for the
apigateway type run the enrichment pass; none models log.Fatal on an
unsupported type or a Go runtime panic inside the enrichment. -/
def tagsInterface.get (ifc : tagsInterface) (j : job) (region : String) :
    Option (List tagsData × Option String) :=
  if j.Type = "asg" then ifc.getTaggedAutoscalingGroups j region
  else if j.Type = "tgwa" then some (ifc.getTaggedTransitGatewayAttachments j region)
  else
    match allResourceTypesFilters.find? (fun p => decide (p.1 = j.Type)) with
    | none => none
    | some _ =>
      let r := runPages (pagedCallback 100 (genericPageFold j region)) ifc.client (0, [])
      let resources := r.1.2
      let resourcePages := r.2
      if j.Type = "apigateway" then
        let ag := ifc.getTaggedApiGateway
        match ag.2 with
        | some errGet => some (resources, some errGet)
        | none =>
          match apiGatewayFilter ag.1.Items resources with
          | none => none
          | some filtered => some (filtered, resourcePages)
      else some (resources, resourcePages)

/-! ## Metric materializer.
The Go map values are modelled as follows: the promLabels map, whose
observable uses are key lookup and key-set enumeration, is a list of
insertions where the last insertion of a key wins; the tagList map,
observed only through keyed lookup, is an association list with
unique keys. -/

/-- Lookup in the tagList map (missing key yields the empty list,
like a Go map read of a missing key). -/
def alGet (m : List (String × List String)) (k : String) : List String :=
  ((m.find? (fun p => decide (p.1 = k))).map (fun p => p.2)).getD []

/-- Keyed update of the tagList map. -/
def alSet (m : List (String × List String)) (k : String) (v : List String) :
    List (String × List String) :=
  (k, v) :: m.filter (fun p => !(decide (p.1 = k)))

/-- Insertion into the promLabels map. -/
def lput (m : List (String × String)) (k v : String) : List (String × String) :=
  m ++ [(k, v)]

/-- Lookup in the promLabels map: the last insertion of a key wins. -/
def lget (m : List (String × String)) (k : String) : Option String :=
  (m.reverse.find? (fun p => decide (p.1 = k))).map (fun p => p.2)

/-- Key set of the promLabels map. -/
def lkeys (m : List (String × String)) : List String :=
  (m.map (fun p => p.1)).dedup

/-- Replace characters that are not label-safe by an underscore
(shared body of the two normalizers below). -/
def sanitizeLabel (s : String) : String :=
  String.mk (s.data.map (fun c => if c = ' ' ∨ c = ',' ∨ c = '-' then '_' else c))

/-- Lowercase an ASCII letter. -/
def lowerChar (c : Char) : Char :=
  if 'A' ≤ c ∧ c ≤ 'Z' then Char.ofNat (c.toNat + 32) else c

/-- Modelled from the spec: promString (declared outside the given
source file) normalizes a service key into label-safe form by
lowercasing and replacing disallowed characters. -/
def promString (s : String) : String :=
  String.mk ((sanitizeLabel s).data.map lowerChar)

/-- Modelled from the spec: promStringTag (declared outside the
given source file) normalizes a tag key into label-safe form by
replacing disallowed characters with underscores. -/
def promStringTag (s : String) : String :=
  sanitizeLabel s

/-- Modelled from the spec: a MetricRecord carries a metric name,
a label map and a value (the struct is declared outside the given
source file; the float64 value only ever holds the integer 0 here,
so it is modelled as an Int). -/
structure PrometheusMetric where
  name : String
  labels : List (String × String)
  value : Int
deriving DecidableEq, Repr

/-- Loop body of pass 1 of migrateTagsToPrometheus (lines 271-277
of the source): record the not-yet-seen tag keys of one record under
its service, in order; dereferencing a nil Service pointer is a Go
runtime panic, modelled as none. -/
def buildStep (m : List (String × List String)) (d : tagsData) :
    Option (List (String × List String)) :=
  match d.Service with
  | none => none
  | some svc =>
    some (d.Tags.foldl (fun m2 t =>
      if stringInSlice t.Key (alGet m2 svc) then m2
      else alSet m2 svc (alGet m2 svc ++ [t.Key])) m)

/-- Pass 1 of migrateTagsToPrometheus (lines 269-277 of the source):
per service, the first-seen-order list of distinct tag keys across
all records of that service. -/
def buildTagList (tagData : List tagsData) : Option (List (String × List String)) :=
  foldOrPanic buildStep tagData []

/-- Inner loop of pass 2 (lines 288-292 of the source): the label
value for a union key is the value of the last tag of the record
whose key equals it, or the empty string when no tag matches. -/
def tagValue (tags : List tag) (entry : String) : String :=
  tags.foldl (fun v t => if entry = t.Key then t.Value else v) ""

/-- Loop body of pass 2 of migrateTagsToPrometheus (lines 279-305
of the source): one metric for one record, with a name label holding
the dereferenced ID and one tag label per key in the union of the
record's service; dereferencing a nil Service or ID pointer is a Go
runtime panic, modelled as none. -/
def metricForRecord (tagList : List (String × List String)) (d : tagsData) :
    Option PrometheusMetric :=
  match d.Service, d.ID with
  | some svc, some id =>
    some { name := "aws_" ++ promString svc ++ "_info",
           labels := (alGet tagList svc).foldl (fun m entry =>
             lput m ("tag_" ++ promStringTag entry) (tagValue d.Tags entry))
             (lput [] "name" id),
           value := 0 }
  | _, _ => none

/-- Body shared by both passes assembled: migrateTagsToPrometheus
(lines 266-308 of the source) builds the union pass 1 and then emits
one metric record per input record. -/
def migrateTagsToPrometheus (tagData : List tagsData) : Option (List PrometheusMetric) :=
  match buildTagList tagData with
  | none => none
  | some tagList => mapOrPanic (metricForRecord tagList) tagData

/-! ## Specification-side characterizations and well-formedness tests -/

/-- Name resolved for an embedded REST-API id by scanning the
listing in order: the Name of the last listed API whose Id matches
(nil Ids are skipped here; the implementation instead crashes on
them, which the refinement theorem accounts for). -/
def specLastMatchName (items : List restApi) (restApiId : String) : Option String :=
  items.foldl (fun acc g => if g.Id = some restApiId then g.Name else acc) none

/-- Specification-side description of the enrichment decision for
one record, following the words of the spec: keep exactly the
records whose ID contains the substring /restapis and whose third
slash-delimited segment resolves, through the listing, to a non-nil
name, setting Matcher to that name; drop everything else. -/
def specApiGatewayKeep (items : List restApi) (r : tagsData) : Option tagsData :=
  match r.ID with
  | none => none
  | some id =>
    if goContains id "/restapis" then
      match (goSplit id '/').get? 2 with
      | none => none
      | some restApiId =>
        match specLastMatchName items restApiId with
        | none => none
        | some nm => some { r with Matcher := some nm }
    else none

/-- Test that every record of a batch has a nil Matcher (true of
every generically discovered record). -/
def allMatchersNil (rs : List tagsData) : Bool :=
  rs.all (fun r => r.Matcher.isNone)

/-- Test that every successfully fetched generic page carries only
items whose ResourceARN pointer is non-nil and non-empty. -/
def goodGenericArns (l : List (Except String getResourcesOutput)) : Bool :=
  l.all (fun e =>
    match e with
    | Except.ok p =>
      p.ResourceTagMappingList.all (fun m =>
        match m.ResourceARN with
        | some s => !(decide (s = ""))
        | none => false)
    | Except.error _ => true)

/-! ## Pagination lemmas -/

/-- One-step unfolding of runPages on a successful page. -/
theorem runPages_cons {σ π ε : Type} (f : σ → π → σ × Bool) (p : π)
    (L : List (Except ε π)) (s : σ) :
    runPages f (Except.ok p :: L) s =
      (if ((f s p).2 && !L.isEmpty) = true then runPages f L (f s p).1
       else ((f s p).1, none)) := rfl

/-- One-step unfolding of runPagesP on a successful page. -/
theorem runPagesP_cons {σ π ε : Type} (f : σ → π → Option (σ × Bool)) (p : π)
    (L : List (Except ε π)) (s : σ) :
    runPagesP f (Except.ok p :: L) s =
      (match f s p with
       | none => none
       | some r => if (r.2 && !L.isEmpty) = true then runPagesP f L r.1
                   else some (r.1, none)) := rfl

/-- Running a capped page callback over error-free pages processes
exactly the pages up to the cap and folds them in order. -/
theorem runPages_ok_char {π α ε : Type} (cap : Nat) (g : π → List α → List α) :
    ∀ (ps : List π) (k : Nat) (acc : List α), k < cap →
    runPages (ε := ε) (pagedCallback cap g) (ps.map Except.ok) (k, acc) =
      ((k + min ps.length (cap - k), (ps.take (cap - k)).foldl (fun a p => g p a) acc), none)
  | [], k, acc, hk => by
    simp [runPages]
  | p :: ps, k, acc, hk => by
    obtain ⟨m, hm⟩ : ∃ m, cap - k = m + 1 := ⟨cap - k - 1, by omega⟩
    rw [List.map_cons, runPages_cons]
    by_cases hc : k + 1 < cap
    · cases ps with
      | nil =>
        rw [if_neg (by simp)]
        simp [pagedCallback, hm, Prod.ext_iff]
      | cons q qs =>
        have hm2 : cap - (k + 1) = m := by omega
        have ih := runPages_ok_char (ε := ε) cap g (q :: qs) (k + 1) (g p acc) hc
        rw [hm2] at ih
        rw [if_pos (by simp [pagedCallback, hc])]
        show runPages (pagedCallback cap g) ((q :: qs).map Except.ok) (k + 1, g p acc) = _
        rw [ih, hm, List.take_succ_cons, List.foldl_cons]
        simp [Prod.ext_iff] <;> omega
    · have h1 : (pagedCallback (π := π) (α := α) cap g (k, acc) p).2 = false := by
        simp [pagedCallback]; omega
      rw [h1, if_neg (by simp)]
      have hm0 : m = 0 := by omega
      subst hm0
      rw [hm, List.take_succ_cons, List.take_zero, List.foldl_cons, List.foldl_nil]
      simp [pagedCallback, Prod.ext_iff]

/-- Running a capped page callback over pages that fail before the
cap is reached returns the error together with the fold of the pages
delivered before the failure. -/
theorem runPages_error_char {π α ε : Type} (cap : Nat) (g : π → List α → List α) :
    ∀ (pre : List π) (k : Nat) (acc : List α) (e : ε) (rest : List (Except ε π)),
    k + pre.length < cap →
    runPages (pagedCallback cap g) (pre.map Except.ok ++ Except.error e :: rest) (k, acc) =
      ((k + pre.length, pre.foldl (fun a p => g p a) acc), some e)
  | [], k, acc, e, rest, hk => by simp [runPages]
  | p :: pre, k, acc, e, rest, hk => by
    have hc : k + 1 < cap := by simp at hk; omega
    have hk2 : (k + 1) + pre.length < cap := by simp at hk; omega
    have ih := runPages_error_char cap g pre (k + 1) (g p acc) e rest hk2
    rw [List.map_cons, List.cons_append, runPages_cons]
    rw [if_pos (by cases pre <;> simp [pagedCallback, hc])]
    show runPages (pagedCallback cap g) (pre.map Except.ok ++ Except.error e :: rest)
      (k + 1, g p acc) = _
    rw [ih]
    simp [Prod.ext_iff] <;> omega

/-- Step lemma for runPagesP when the callback crashes on the page. -/
theorem runPagesP_cons_none {σ π ε : Type} (f : σ → π → Option (σ × Bool)) (p : π)
    (L : List (Except ε π)) (s : σ) (h : f s p = none) :
    runPagesP f (Except.ok p :: L) s = none := by
  rw [runPagesP_cons, h]

/-- Step lemma for runPagesP when the callback succeeds on the page. -/
theorem runPagesP_cons_some {σ π ε : Type} (f : σ → π → Option (σ × Bool)) (p : π)
    (L : List (Except ε π)) (s : σ) (r : σ × Bool) (h : f s p = some r) :
    runPagesP f (Except.ok p :: L) s =
      (if (r.2 && !L.isEmpty) = true then runPagesP f L r.1 else some (r.1, none)) := by
  rw [runPagesP_cons, h]

/-- Running a capped crashing page callback over error-free pages:
the call either crashes where the monadic fold of the first
cap-many pages crashes, or returns that fold. -/
theorem runPagesP_ok_char {π α ε : Type} (cap : Nat) (g : π → List α → Option (List α)) :
    ∀ (ps : List π) (k : Nat) (acc : List α), k < cap →
    runPagesP (ε := ε) (pagedCallbackP cap g) (ps.map Except.ok) (k, acc) =
      ((ps.take (cap - k)).foldlM (fun a p => g p a) acc).map
        (fun res => ((k + min ps.length (cap - k), res), none))
  | [], k, acc, hk => by simp [runPagesP]
  | p :: ps, k, acc, hk => by
    obtain ⟨m, hm⟩ : ∃ m, cap - k = m + 1 := ⟨cap - k - 1, by omega⟩
    rw [List.map_cons, hm, List.take_succ_cons, List.foldlM_cons]
    cases hg : g p acc with
    | none =>
      rw [runPagesP_cons_none _ _ _ _ (by simp [pagedCallbackP, hg])]
      simp
    | some res =>
      rw [runPagesP_cons_some _ _ _ _ ((k + 1, res), decide (k + 1 < cap))
        (by simp [pagedCallbackP, hg])]
      by_cases hc : k + 1 < cap
      · cases ps with
        | nil =>
          rw [if_neg (by simp)]
          simp [Prod.ext_iff]
        | cons q qs =>
          have hm2 : cap - (k + 1) = m := by omega
          have ih := runPagesP_ok_char (ε := ε) cap g (q :: qs) (k + 1) res hc
          rw [hm2] at ih
          rw [if_pos (by simp [hc])]
          show runPagesP (pagedCallbackP cap g) ((q :: qs).map Except.ok) (k + 1, res) = _
          rw [ih]
          have hbind : (do
              let init ← some res
              List.foldlM (fun a p => g p a) init (List.take m (q :: qs))) =
              List.foldlM (fun a p => g p a) res (List.take m (q :: qs)) := rfl
          rw [hbind]
          cases hf : (List.take m (q :: qs)).foldlM (fun a p => g p a) res with
          | none => simp [hf]
          | some r =>
            simp [hf, Prod.ext_iff]
            omega
      · have hm0 : m = 0 := by omega
        subst hm0
        rw [if_neg (by simp [hc])]
        simp [Prod.ext_iff]

/-- Running a capped crashing page callback over pages that fail
before the cap: the error is returned together with the monadic fold
of the pages delivered before the failure, unless that fold crashes
first. -/
theorem runPagesP_error_char {π α ε : Type} (cap : Nat) (g : π → List α → Option (List α)) :
    ∀ (pre : List π) (k : Nat) (acc : List α) (e : ε) (rest : List (Except ε π)),
    k + pre.length < cap →
    runPagesP (pagedCallbackP cap g) (pre.map Except.ok ++ Except.error e :: rest) (k, acc) =
      (pre.foldlM (fun a p => g p a) acc).map (fun res => ((k + pre.length, res), some e))
  | [], k, acc, e, rest, hk => by simp [runPagesP]
  | p :: pre, k, acc, e, rest, hk => by
    have hc : k + 1 < cap := by simp at hk; omega
    have hk2 : (k + 1) + pre.length < cap := by simp at hk; omega
    rw [List.map_cons, List.cons_append, List.foldlM_cons]
    cases hg : g p acc with
    | none =>
      rw [runPagesP_cons_none _ _ _ _ (by simp [pagedCallbackP, hg])]
      simp
    | some res =>
      rw [runPagesP_cons_some _ _ _ _ ((k + 1, res), decide (k + 1 < cap))
        (by simp [pagedCallbackP, hg])]
      rw [if_pos (by cases pre <;> simp [hc])]
      have ih := runPagesP_error_char (ε := ε) cap g pre (k + 1) res e rest hk2
      show runPagesP (pagedCallbackP cap g) (pre.map Except.ok ++ Except.error e :: rest)
        (k + 1, res) = _
      rw [ih]
      have hbind : (do
          let init ← some res
          List.foldlM (fun a p => g p a) init pre) =
          List.foldlM (fun a p => g p a) res pre := rfl
      rw [hbind]
      cases hf : pre.foldlM (fun a p => g p a) res with
      | none => simp [hf]
      | some r =>
        simp [hf, Prod.ext_iff]
        omega

/-- Every property of the callback state that the callback preserves
holds for the final state of runPages, whatever pages arrive. -/
theorem runPages_pres {σ π ε : Type} (f : σ → π → σ × Bool) (P : σ → Prop) :
    ∀ (pages : List (Except ε π)) (s : σ),
    (∀ s' p, Except.ok p ∈ pages → P s' → P (f s' p).1) → P s →
    P (runPages f pages s).1
  | [], _, _, hs => hs
  | Except.error _ :: _, _, _, hs => hs
  | Except.ok p :: rest, s, hf, hs => by
    rw [runPages_cons]
    have h1 : P (f s p).1 := hf s p (List.mem_cons_self _ _) hs
    by_cases hcond : ((f s p).2 && !rest.isEmpty) = true
    · rw [if_pos hcond]
      exact runPages_pres f P rest (f s p).1
        (fun s' q hq => hf s' q (List.mem_cons_of_mem _ hq)) h1
    · rw [if_neg hcond]
      exact h1

/-- Preservation through runPagesP: when the call returns (does not
crash), every callback-preserved state property holds at the end. -/
theorem runPagesP_pres {σ π ε : Type} (f : σ → π → Option (σ × Bool)) (P : σ → Prop) :
    ∀ (pages : List (Except ε π)) (s : σ) (out : σ × Option ε),
    (∀ s' p r, Except.ok p ∈ pages → f s' p = some r → P s' → P r.1) → P s →
    runPagesP f pages s = some out → P out.1
  | [], s, out, _, hs, heq => by
    simp [runPagesP] at heq
    rw [← heq]
    exact hs
  | Except.error e :: rest, s, out, _, hs, heq => by
    simp [runPagesP] at heq
    rw [← heq]
    exact hs
  | Except.ok p :: rest, s, out, hf, hs, heq => by
    cases hfp : f s p with
    | none =>
      rw [runPagesP_cons_none _ _ _ _ hfp] at heq
      exact absurd heq (by simp)
    | some r =>
      rw [runPagesP_cons_some _ _ _ _ r hfp] at heq
      have h1 : P r.1 := hf s p r (List.mem_cons_self _ _) hfp hs
      by_cases hcond : (r.2 && !rest.isEmpty) = true
      · rw [if_pos hcond] at heq
        exact runPagesP_pres f P rest r.1 out
          (fun s' q r' hq => hf s' q r' (List.mem_cons_of_mem _ hq)) h1 heq
      · rw [if_neg hcond] at heq
        simp at heq
        rw [← heq]
        exact h1

/-! ## Claim theorems -/

/-- C4: the Tag Filter returns true iff every required Key/Value
pair of the matcher set is matched, with exact key and value
equality, by some tag of the record; the empty matcher set passes
every record, including one with zero tags. -/
theorem C4_tag_filter_iff (r : tagsData) (M : List tag) :
    (r.filterThroughTags M = true ↔
      ∀ m ∈ M, ∃ t ∈ r.Tags, t.Key = m.Key ∧ t.Value = m.Value) ∧
    r.filterThroughTags [] = true := by
  constructor
  · simp [tagsData.filterThroughTags, List.all_eq_true, List.any_eq_true]
  · simp [tagsData.filterThroughTags]

/-- C5: when the native ASG ARN splits on colons into at least 8
fields, the reconstructed identifier is
arn:(field 1):autoscaling:(field 3):(field 4):(field 7) of the
0-indexed split. -/
theorem C5_asg_arn_reconstruction (arn : String)
    (h : 8 ≤ (goSplit arn ':').length) :
    reconstructAsgID arn =
      some ("arn:" ++ (goSplit arn ':').getD 1 "" ++ ":autoscaling:" ++
        (goSplit arn ':').getD 3 "" ++ ":" ++ (goSplit arn ':').getD 4 "" ++ ":" ++
        (goSplit arn ':').getD 7 "") := by
  have hg : ∀ i, i < 8 → (goSplit arn ':').get? i = some ((goSplit arn ':').getD i "") := by
    intro i hi
    have hlt : i < (goSplit arn ':').length := by omega
    rw [List.get?_eq_get hlt, List.getD_eq_get?, List.get?_eq_get hlt]
    rfl
  simp only [reconstructAsgID]
  rw [hg 1 (by omega), hg 3 (by omega), hg 4 (by omega), hg 7 (by omega)]

/-- C5 witness: the specification's worked example. -/
theorem C5_witness :
    8 ≤ (goSplit "arn:aws:autoscaling:us-east-1:123456789012:autoScalingGroup:uuid:autoScalingGroupName/my-asg" ':').length ∧
    reconstructAsgID "arn:aws:autoscaling:us-east-1:123456789012:autoScalingGroup:uuid:autoScalingGroupName/my-asg" =
      some "arn:aws:autoscaling:us-east-1:123456789012:autoScalingGroupName/my-asg" :=
  ⟨by decide,
    (C5_asg_arn_reconstruction
      "arn:aws:autoscaling:us-east-1:123456789012:autoScalingGroup:uuid:autoScalingGroupName/my-asg"
      (by decide)).trans (by decide)⟩

/-- C10: the ASG identifier reconstruction is total only under the
precondition that the ARN splits into at least 8 colon-separated
fields; on an ARN with fewer fields the index accesses are out of
range, so the reconstruction crashes and the discovery path
processing such a group crashes with it. -/
theorem C10_asg_reconstruction_precondition (arn : String) (j : job) (region : String)
    (h : (goSplit arn ':').length < 8) :
    reconstructAsgID arn = none ∧
    tagsInterface.getTaggedAutoscalingGroups
      ⟨[], [Except.ok ⟨[⟨arn, []⟩]⟩], [], []⟩ j region = none := by
  have h7 : (goSplit arn ':')[7]? = none := List.getElem?_eq_none (by omega)
  have hrec : reconstructAsgID arn = none := by
    simp only [reconstructAsgID]
    cases h1 : (goSplit arn ':').get? 1 <;> cases h3 : (goSplit arn ':').get? 3 <;>
      cases h4 : (goSplit arn ':').get? 4 <;> simp [h7]
  refine ⟨hrec, ?_⟩
  simp [tagsInterface.getTaggedAutoscalingGroups, runPagesP, pagedCallbackP,
    asgPageFold, foldOrPanic, hrec]

/-- C10 witness: a one-field ARN crashes the reconstruction and the
ASG discovery path. -/
theorem C10_witness :
    (goSplit "x" ':').length < 8 ∧
    reconstructAsgID "x" = none ∧
    tagsInterface.getTaggedAutoscalingGroups ⟨[], [Except.ok ⟨[⟨"x", []⟩]⟩], [], []⟩
      ⟨"asg", []⟩ "r" = none :=
  ⟨by decide, (C10_asg_reconstruction_precondition "x" ⟨"asg", []⟩ "r" (by decide)).1,
    (C10_asg_reconstruction_precondition "x" ⟨"asg", []⟩ "r" (by decide)).2⟩

/-- C2: against a REST-API source yielding 12 pages of one item
each, the bulk listing accumulates the items of the first 11 pages:
the continuation condition (pageNum at most maxPages) is still true
when page 10 has been processed, so an 11th page is requested and
its items are appended before the loop stops. -/
theorem C2_bulk_listing_accumulates_eleven_pages :
    tagsInterface.getTaggedApiGateway
      ⟨[], [],
        (List.range 12).map
          (fun i => Except.ok ⟨[⟨some (Nat.repr i), some (Nat.repr i)⟩]⟩), []⟩ =
      (⟨(List.range 11).map (fun i => ⟨some (Nat.repr i), some (Nat.repr i)⟩)⟩, none) := by
  decide

/-- The REST-API listing callback is the capped callback shape with
cap 11: continuing while pageNum is at most 10 is continuing while
pageNum is below 11. -/
theorem apiGwCallback_eq :
    (fun (s : Nat × List restApi) (page : getRestApisOutput) =>
      ((s.1 + 1, s.2 ++ page.Items), decide (s.1 + 1 ≤ maxPages))) =
    pagedCallback 11 (fun page acc => acc ++ page.Items) := by
  funext s page
  refine Prod.ext rfl ?_
  show decide (s.1 + 1 ≤ maxPages) = decide (s.1 + 1 < 11)
  rw [decide_eq_decide]
  simp [maxPages]
  omega

/-- C9: the generic, ASG and TGW discovery loops each stop after
the 100th page: against an error-free source, the returned records
are built by folding exactly the first 100 pages. -/
theorem C9_hundred_page_cap :
    (∀ (ps : List getResourcesOutput) (A : List (Except String describeAutoScalingGroupsOutput))
       (G : List (Except String getRestApisOutput))
       (E : List (Except String describeTransitGatewayAttachmentsOutput))
       (j : job) (region : String) (fs : String × List String),
       100 < ps.length → j.Type ≠ "asg" → j.Type ≠ "tgwa" → j.Type ≠ "apigateway" →
       allResourceTypesFilters.find? (fun p => decide (p.1 = j.Type)) = some fs →
       tagsInterface.get ⟨ps.map Except.ok, A, G, E⟩ j region =
         some ((ps.take 100).foldl (fun a p => genericPageFold j region p a) [], none)) ∧
    (∀ (ps : List describeAutoScalingGroupsOutput)
       (C : List (Except String getResourcesOutput))
       (G : List (Except String getRestApisOutput))
       (E : List (Except String describeTransitGatewayAttachmentsOutput))
       (j : job) (region : String),
       100 < ps.length →
       tagsInterface.getTaggedAutoscalingGroups ⟨C, ps.map Except.ok, G, E⟩ j region =
         ((ps.take 100).foldlM (fun a p => asgPageFold j region p a) []).map
           (fun res => (res, none))) ∧
    (∀ (ps : List describeTransitGatewayAttachmentsOutput)
       (C : List (Except String getResourcesOutput))
       (A : List (Except String describeAutoScalingGroupsOutput))
       (G : List (Except String getRestApisOutput))
       (j : job) (region : String),
       100 < ps.length →
       tagsInterface.getTaggedTransitGatewayAttachments ⟨C, A, G, ps.map Except.ok⟩ j region =
         ((ps.take 100).foldl (fun a p => tgwPageFold j region p a) [], none)) := by
  refine ⟨?_, ?_, ?_⟩
  · intro ps A G E j region fs hlen ht1 ht2 ht3 hreg
    have hrun := runPages_ok_char (ε := String) 100 (genericPageFold j region) ps 0 [] (by omega)
    simp only [Nat.sub_zero, Nat.zero_add] at hrun
    simp [tagsInterface.get, ht1, ht2, ht3, hreg, hrun]
  · intro ps C G E j region hlen
    have hrun := runPagesP_ok_char (ε := String) 100 (asgPageFold j region) ps 0 [] (by omega)
    simp only [Nat.sub_zero, Nat.zero_add] at hrun
    simp [tagsInterface.getTaggedAutoscalingGroups, hrun]
    cases hf : (ps.take 100).foldlM (fun a p => asgPageFold j region p a) [] <;> simp [hf]
  · intro ps C A G j region hlen
    have hrun := runPages_ok_char (ε := String) 100 (tgwPageFold j region) ps 0 [] (by omega)
    simp only [Nat.sub_zero, Nat.zero_add] at hrun
    simp [tagsInterface.getTaggedTransitGatewayAttachments, hrun]

/-- C9 witness: 101 empty pages on each path. -/
theorem C9_witness :
    100 < (List.replicate 101 (⟨[]⟩ : getResourcesOutput)).length ∧
    allResourceTypesFilters.find? (fun p => decide (p.1 = "ec2")) =
      some ("ec2", ["ec2:instance"]) ∧
    tagsInterface.get
      ⟨(List.replicate 101 (⟨[]⟩ : getResourcesOutput)).map Except.ok, [], [], []⟩
      ⟨"ec2", []⟩ "r" = some ([], none) ∧
    tagsInterface.getTaggedAutoscalingGroups
      ⟨[], (List.replicate 101 (⟨[]⟩ : describeAutoScalingGroupsOutput)).map Except.ok, [], []⟩
      ⟨"asg", []⟩ "r" = some ([], none) ∧
    tagsInterface.getTaggedTransitGatewayAttachments
      ⟨[], [], [], (List.replicate 101 (⟨[]⟩ : describeTransitGatewayAttachmentsOutput)).map Except.ok⟩
      ⟨"tgwa", []⟩ "r" = ([], none) :=
  ⟨by simp, by decide,
    (C9_hundred_page_cap.1 (List.replicate 101 ⟨[]⟩) [] [] [] ⟨"ec2", []⟩ "r"
      ("ec2", ["ec2:instance"]) (by simp) (by decide) (by decide) (by decide)
      (by decide)).trans (by decide),
    (C9_hundred_page_cap.2.1 (List.replicate 101 ⟨[]⟩) [] [] [] ⟨"asg", []⟩ "r"
      (by simp)).trans (by decide),
    (C9_hundred_page_cap.2.2 (List.replicate 101 ⟨[]⟩) [] [] [] ⟨"tgwa", []⟩ "r"
      (by simp)).trans (by decide)⟩

/-- C8: when a paginated provider call fails mid-sequence (before
the page cap), every discovery function returns the error as the
result of the job, together with whatever partial record slice was
accumulated from the pages delivered before the failure; for the
apigateway type, a failing bulk REST-API listing is returned with
the records of the full generic run. -/
theorem C8_error_propagation :
    (∀ (pre : List getResourcesOutput) (e : String)
       (rest : List (Except String getResourcesOutput))
       (A : List (Except String describeAutoScalingGroupsOutput))
       (G : List (Except String getRestApisOutput))
       (E : List (Except String describeTransitGatewayAttachmentsOutput))
       (j : job) (region : String) (fs : String × List String),
       pre.length < 100 → j.Type ≠ "asg" → j.Type ≠ "tgwa" → j.Type ≠ "apigateway" →
       allResourceTypesFilters.find? (fun p => decide (p.1 = j.Type)) = some fs →
       tagsInterface.get ⟨pre.map Except.ok ++ Except.error e :: rest, A, G, E⟩ j region =
         some (pre.foldl (fun a p => genericPageFold j region p a) [], some e)) ∧
    (∀ (pre : List describeAutoScalingGroupsOutput) (e : String)
       (rest : List (Except String describeAutoScalingGroupsOutput))
       (C : List (Except String getResourcesOutput))
       (G : List (Except String getRestApisOutput))
       (E : List (Except String describeTransitGatewayAttachmentsOutput))
       (j : job) (region : String),
       pre.length < 100 →
       tagsInterface.getTaggedAutoscalingGroups
         ⟨C, pre.map Except.ok ++ Except.error e :: rest, G, E⟩ j region =
         (pre.foldlM (fun a p => asgPageFold j region p a) []).map
           (fun res => (res, some e))) ∧
    (∀ (pre : List describeTransitGatewayAttachmentsOutput) (e : String)
       (rest : List (Except String describeTransitGatewayAttachmentsOutput))
       (C : List (Except String getResourcesOutput))
       (A : List (Except String describeAutoScalingGroupsOutput))
       (G : List (Except String getRestApisOutput))
       (j : job) (region : String),
       pre.length < 100 →
       tagsInterface.getTaggedTransitGatewayAttachments
         ⟨C, A, G, pre.map Except.ok ++ Except.error e :: rest⟩ j region =
         (pre.foldl (fun a p => tgwPageFold j region p a) [], some e)) ∧
    (∀ (gps : List getResourcesOutput) (pre : List getRestApisOutput) (e : String)
       (rest : List (Except String getRestApisOutput))
       (A : List (Except String describeAutoScalingGroupsOutput))
       (E : List (Except String describeTransitGatewayAttachmentsOutput))
       (j : job) (region : String),
       pre.length ≤ 10 → j.Type = "apigateway" →
       tagsInterface.get ⟨gps.map Except.ok, A, pre.map Except.ok ++ Except.error e :: rest, E⟩
         j region =
         some ((gps.take 100).foldl (fun a p => genericPageFold j region p a) [], some e)) := by
  refine ⟨?_, ?_, ?_, ?_⟩
  · intro pre e rest A G E j region fs hlen ht1 ht2 ht3 hreg
    have hrun := runPages_error_char (ε := String) 100 (genericPageFold j region)
      pre 0 [] e rest (by omega)
    simp only [Nat.zero_add] at hrun
    simp [tagsInterface.get, ht1, ht2, ht3, hreg, hrun]
  · intro pre e rest C G E j region hlen
    have hrun := runPagesP_error_char (ε := String) 100 (asgPageFold j region)
      pre 0 [] e rest (by omega)
    simp only [Nat.zero_add] at hrun
    simp [tagsInterface.getTaggedAutoscalingGroups, hrun]
    cases hf : pre.foldlM (fun a p => asgPageFold j region p a) [] <;> simp [hf]
  · intro pre e rest C A G j region hlen
    have hrun := runPages_error_char (ε := String) 100 (tgwPageFold j region)
      pre 0 [] e rest (by omega)
    simp only [Nat.zero_add] at hrun
    simp [tagsInterface.getTaggedTransitGatewayAttachments, hrun]
  · intro gps pre e rest A E j region hlen hjt
    have hgen := runPages_ok_char (ε := String) 100 (genericPageFold j region) gps 0 []
      (by omega)
    simp only [Nat.sub_zero, Nat.zero_add] at hgen
    have hlist := runPages_error_char (ε := String) 11 (fun page acc => acc ++ page.Items)
      pre 0 [] e rest (by omega)
    simp only [Nat.zero_add] at hlist
    have hag : tagsInterface.getTaggedApiGateway
        ⟨gps.map Except.ok, A, pre.map Except.ok ++ Except.error e :: rest, E⟩ =
        (⟨pre.foldl (fun a p => a ++ p.Items) []⟩, some e) := by
      simp only [tagsInterface.getTaggedApiGateway, apiGwCallback_eq, hlist]
    have hreg : allResourceTypesFilters.find? (fun p => decide (p.1 = "apigateway")) =
        some ("apigateway", ["apigateway"]) := by decide
    simp [tagsInterface.get, hjt, hgen, hag, hreg]

/-- C8 witness: an immediate transport failure on each path. -/
theorem C8_witness :
    ([] : List getResourcesOutput).length < 100 ∧
    allResourceTypesFilters.find? (fun p => decide (p.1 = "ec2")) =
      some ("ec2", ["ec2:instance"]) ∧
    tagsInterface.get ⟨[Except.error "boom"], [], [], []⟩ ⟨"ec2", []⟩ "r" =
      some ([], some "boom") ∧
    tagsInterface.getTaggedAutoscalingGroups ⟨[], [Except.error "boom"], [], []⟩
      ⟨"asg", []⟩ "r" = some ([], some "boom") ∧
    tagsInterface.getTaggedTransitGatewayAttachments ⟨[], [], [], [Except.error "boom"]⟩
      ⟨"tgwa", []⟩ "r" = ([], some "boom") ∧
    tagsInterface.get ⟨[], [], [Except.error "boom"], []⟩ ⟨"apigateway", []⟩ "r" =
      some ([], some "boom") :=
  ⟨by decide, by decide,
    C8_error_propagation.1 [] "boom" [] [] [] [] ⟨"ec2", []⟩ "r"
      ("ec2", ["ec2:instance"]) (by decide) (by decide) (by decide) (by decide) (by decide),
    C8_error_propagation.2.1 [] "boom" [] [] [] [] ⟨"asg", []⟩ "r" (by decide),
    C8_error_propagation.2.2.1 [] "boom" [] [] [] [] ⟨"tgwa", []⟩ "r" (by decide),
    C8_error_propagation.2.2.2 [] [] "boom" [] [] [] ⟨"apigateway", []⟩ "r"
      (by decide) (by decide)⟩

/-- When the per-record scan over the listing returns (crashes on no
nil Id), its result is the left fold that keeps the Name of the last
item whose Id matches. -/
theorem findMatcher_eq_foldl :
    ∀ (items : List restApi) (rid : String) (acc m : Option String),
    findMatcher rid acc items = some m →
    m = items.foldl (fun acc2 g => if g.Id = some rid then g.Name else acc2) acc
  | [], rid, acc, m, h => by
    simp [findMatcher] at h
    simp [h]
  | g :: items, rid, acc, m, h => by
    cases hg : g.Id with
    | none => rw [findMatcher, hg] at h; exact absurd h (by simp)
    | some gid =>
      rw [findMatcher, hg] at h
      have ih := findMatcher_eq_foldl items rid (if gid = rid then g.Name else acc) m h
      rw [List.foldl_cons, hg, ih]
      by_cases hc : gid = rid <;> simp [hc]

/-- When the enrichment decision for a record with a nil Matcher
returns (does not crash), it agrees with the specification-side
characterization. -/
theorem enrichOne_eq_spec (items : List restApi) (r : tagsData) (o : Option tagsData)
    (hm : r.Matcher = none) (h : enrichOne items r = some o) :
    o = specApiGatewayKeep items r := by
  cases hid : r.ID with
  | none => simp [enrichOne, hid] at h
  | some id =>
    simp only [enrichOne, hid] at h
    by_cases hin : goContains id "/restapis" = true
    · rw [if_pos hin] at h
      cases hseg : (goSplit id '/').get? 2 with
      | none =>
        simp only [hseg] at h
        exact absurd h (by simp)
      | some rid =>
        simp only [hseg] at h
        cases hfm : findMatcher rid r.Matcher items with
        | none =>
          simp only [hfm] at h
          exact absurd h (by simp)
        | some m =>
          simp only [hfm] at h
          have hfold := findMatcher_eq_foldl items rid r.Matcher m hfm
          rw [hm] at hfold
          have hspec : specLastMatchName items rid = m := by
            rw [specLastMatchName]
            exact hfold.symm
          simp only [specApiGatewayKeep, hid]
          rw [if_pos hin]
          simp only [hseg, hspec]
          cases m with
          | none =>
            simp only [Option.some.injEq] at h
            simp [← h]
          | some nm =>
            simp only [Option.some.injEq] at h
            simp [← h]
    · rw [if_neg hin] at h
      simp only [Option.some.injEq] at h
      simp only [specApiGatewayKeep, hid]
      rw [if_neg hin]
      simp [← h]

/-- When the enrichment pass over records with nil Matchers returns,
its output is exactly the filterMap of the specification-side
per-record decision, in order. -/
theorem apiGatewayFilter_eq_spec :
    ∀ (items : List restApi) (rs out : List tagsData),
    (∀ r ∈ rs, r.Matcher = none) →
    apiGatewayFilter items rs = some out →
    out = rs.filterMap (specApiGatewayKeep items)
  | items, [], out, _, h => by
    simp [apiGatewayFilter] at h
    subst h
    simp
  | items, r :: rs, out, hm, h => by
    simp only [apiGatewayFilter] at h
    cases he : enrichOne items r with
    | none => simp [he] at h
    | some o =>
      simp only [he] at h
      cases hrest : apiGatewayFilter items rs with
      | none => simp [hrest] at h
      | some rs2 =>
        simp only [hrest] at h
        have ih := apiGatewayFilter_eq_spec items rs rs2
          (fun x hx => hm x (List.mem_cons_of_mem _ hx)) hrest
        have hspec : specApiGatewayKeep items r = o :=
          (enrichOne_eq_spec items r o (hm r (List.mem_cons_self _ _)) he).symm
        cases o with
        | none =>
          simp only [Option.some.injEq] at h
          simp only [List.filterMap_cons, hspec, ← ih]
          exact h.symm
        | some r2 =>
          simp only [Option.some.injEq] at h
          simp only [List.filterMap_cons, hspec, ← ih]
          exact h.symm

/-- C3 (amended): given a REST-API listing and generically
discovered records (nil Matchers), when the enrichment pass returns,
its output keeps exactly the records whose ID contains /restapis and
whose third slash-delimited segment is the Id of some listed API
whose last listing occurrence carries a non-nil Name, setting
Matcher to that Name; all other records are dropped, in order. -/
theorem C3_apigateway_enrichment_refines (items : List restApi) (rs out : List tagsData)
    (hm : allMatchersNil rs = true)
    (h : apiGatewayFilter items rs = some out) :
    out = rs.filterMap (specApiGatewayKeep items) := by
  apply apiGatewayFilter_eq_spec items rs out _ h
  intro r hr
  simp only [allMatchersNil, List.all_eq_true] at hm
  have := hm r hr
  simpa [Option.isNone_iff_eq_none] using this

/-- C3 counterexample to the claim as stated: a record whose
embedded REST-API id equals the Id of a listed API is nonetheless
dropped when that API's Name pointer is nil, so the output need not
contain every record whose id matches some listed API. -/
theorem C3_counterexample :
    goContains "x/restapis/abc" "/restapis" = true ∧
    (goSplit "x/restapis/abc" '/').get? 2 = some "abc" ∧
    ((⟨some "abc", none⟩ : restApi).Id = some "abc") ∧
    apiGatewayFilter [⟨some "abc", none⟩]
      [⟨some "x/restapis/abc", none, [], some "apigateway", some "r"⟩] = some [] := by
  decide

/-- C3 witness: a matching API with a non-nil name enriches and
keeps the record. -/
theorem C3_witness :
    allMatchersNil [⟨some "x/restapis/abc", none, [], some "apigateway", some "r"⟩] = true ∧
    apiGatewayFilter [⟨some "abc", some "my-api"⟩]
      [⟨some "x/restapis/abc", none, [], some "apigateway", some "r"⟩] =
      some [⟨some "x/restapis/abc", some "my-api", [], some "apigateway", some "r"⟩] ∧
    [(⟨some "x/restapis/abc", some "my-api", [], some "apigateway", some "r"⟩ : tagsData)] =
      [(⟨some "x/restapis/abc", none, [], some "apigateway", some "r"⟩ : tagsData)].filterMap
        (specApiGatewayKeep [⟨some "abc", some "my-api"⟩]) :=
  ⟨by decide, by decide,
    C3_apigateway_enrichment_refines [⟨some "abc", some "my-api"⟩]
      [⟨some "x/restapis/abc", none, [], some "apigateway", some "r"⟩]
      [⟨some "x/restapis/abc", some "my-api", [], some "apigateway", some "r"⟩]
      (by decide) (by decide)⟩

/-- Folding label insertions over a list appends the corresponding
key/value pairs in order. -/
theorem foldl_lput_eq {β : Type} (f v : β → String) :
    ∀ (l : List β) (m : List (String × String)),
    l.foldl (fun m2 e => lput m2 (f e) (v e)) m = m ++ l.map (fun e => (f e, v e))
  | [], m => by simp
  | e :: l, m => by
    rw [List.foldl_cons, foldl_lput_eq f v l (lput m (f e) (v e))]
    simp [lput]

/-- Soundness of mapOrPanic: on success, the output has the length
of the input and corresponds to it pointwise. -/
theorem mapOrPanic_sound {α β : Type} (f : α → Option β) :
    ∀ (l : List α) (out : List β), mapOrPanic f l = some out →
    out.length = l.length ∧ ∀ pr ∈ l.zip out, f pr.1 = some pr.2
  | [], out, h => by
    simp only [mapOrPanic, Option.some.injEq] at h
    subst h
    simp
  | a :: l, out, h => by
    simp only [mapOrPanic] at h
    cases hf : f a with
    | none =>
      simp only [hf] at h
      exact absurd h (by simp)
    | some b =>
      simp only [hf] at h
      cases hrec : mapOrPanic f l with
      | none =>
        simp only [hrec] at h
        exact absurd h (by simp)
      | some bs =>
        simp only [hrec, Option.map_some'] at h
        have ih := mapOrPanic_sound f l bs hrec
        rw [Option.some.injEq] at h
        subst h
        refine ⟨by simp [ih.1], ?_⟩
        intro pr hpr
        rw [List.zip_cons_cons] at hpr
        rcases List.mem_cons.mp hpr with hpr1 | hpr2
        · subst hpr1
          exact hf
        · exact ih.2 pr hpr2

/-- Closed form of the labels built for one record: the name label
followed by one tag label per key of the record's service union. -/
theorem metricForRecord_some (TL : List (String × List String)) (d : tagsData)
    (svc id : String) (hs : d.Service = some svc) (hi : d.ID = some id) :
    metricForRecord TL d = some
      { name := "aws_" ++ promString svc ++ "_info",
        labels := ("name", id) :: (alGet TL svc).map
          (fun e => ("tag_" ++ promStringTag e, tagValue d.Tags e)),
        value := 0 } := by
  simp only [metricForRecord, hs, hi, Option.some.injEq]
  rw [foldl_lput_eq]
  simp [lput]

/-- Tag labels never collide with the name label. -/
theorem tag_label_ne_name (s : String) : ("tag_" ++ s) ≠ "name" := by
  intro h
  have hd := congrArg String.data h
  rw [String.data_append] at hd
  have h4 : "tag_".data = ['t', 'a', 'g', '_'] := rfl
  have h5 : "name".data = ['n', 'a', 'm', 'e'] := rfl
  rw [h4, h5] at hd
  simp at hd

/-- Lookup of the name label in a label map whose remaining keys all
differ from it. -/
theorem lget_name (id : String) (L : List (String × String))
    (hL : ∀ p ∈ L, p.1 ≠ "name") :
    lget (("name", id) :: L) "name" = some id := by
  simp only [lget, List.reverse_cons]
  rw [List.find?_append]
  have h1 : L.reverse.find? (fun p => decide (p.1 = "name")) = none := by
    rw [List.find?_eq_none]
    intro p hp
    simp [hL p (List.mem_reverse.mp hp)]
  rw [h1]
  simp

/-- C1 (amended): every emitted MetricRecord's name label is the
record's dereferenced ID; the Matcher is not consulted by the
materializer. -/
theorem C1_name_label_is_ID (td : List tagsData) (out : List PrometheusMetric)
    (h : migrateTagsToPrometheus td = some out) :
    ∀ pr ∈ td.zip out, lget pr.2.labels "name" = pr.1.ID := by
  intro pr hpr
  cases hTL : buildTagList td with
  | none =>
    simp only [migrateTagsToPrometheus, hTL] at h
    exact absurd h (by simp)
  | some TL =>
    simp only [migrateTagsToPrometheus, hTL] at h
    have hsound := (mapOrPanic_sound (metricForRecord TL) td out h).2 pr hpr
    cases hs : pr.1.Service with
    | none => simp [metricForRecord, hs] at hsound
    | some svc =>
      cases hi : pr.1.ID with
      | none => simp [metricForRecord, hs, hi] at hsound
      | some id =>
        rw [metricForRecord_some TL pr.1 svc id hs hi] at hsound
        rw [Option.some.injEq] at hsound
        rw [← hsound]
        apply lget_name
        intro p hp
        obtain ⟨e, _, hpe⟩ := List.mem_map.mp hp
        rw [← hpe]
        exact tag_label_ne_name _

/-- C1 counterexample to the claim as stated: a record whose Matcher
is set still gets its ID, not the Matcher, as the name label. -/
theorem C1_counterexample :
    migrateTagsToPrometheus [⟨some "i", some "m", [], some "s", some "r"⟩] =
      some [⟨"aws_s_info", [("name", "i")], 0⟩] ∧
    lget [("name", "i")] "name" = some "i" ∧
    ("i" : String) ≠ "m" := by
  decide

/-- C1 witness: the amended statement evaluated on the same batch. -/
theorem C1_witness :
    migrateTagsToPrometheus [⟨some "i", some "m", [], some "s", some "r"⟩] =
      some [⟨"aws_s_info", [("name", "i")], 0⟩] ∧
    lget ([("name", "i")] : List (String × String)) "name" =
      (⟨some "i", some "m", [], some "s", some "r"⟩ : tagsData).ID :=
  ⟨by decide,
    C1_name_label_is_ID [⟨some "i", some "m", [], some "s", some "r"⟩]
      [⟨"aws_s_info", [("name", "i")], 0⟩] (by decide)
      (⟨some "i", some "m", [], some "s", some "r"⟩, ⟨"aws_s_info", [("name", "i")], 0⟩)
      (by decide)⟩

/-- Preservation through a plain fold. -/
theorem foldl_pres {α β : Type} (f : β → α → β) (P : β → Prop) :
    ∀ (l : List α) (b : β), (∀ b' a, a ∈ l → P b' → P (f b' a)) → P b → P (l.foldl f b)
  | [], _, _, hb => hb
  | a :: l, b, hf, hb =>
    foldl_pres f P l (f b a) (fun b' a' ha' => hf b' a' (List.mem_cons_of_mem _ ha'))
      (hf b a (List.mem_cons_self _ _) hb)

/-- Preservation through a crashing fold that returns. -/
theorem foldOrPanic_pres {α β : Type} (f : β → α → Option β) (P : β → Prop) :
    ∀ (l : List α) (b b2 : β), foldOrPanic f l b = some b2 →
    (∀ b' a b'', a ∈ l → f b' a = some b'' → P b' → P b'') → P b → P b2
  | [], b, b2, h, _, hb => by
    simp only [foldOrPanic, Option.some.injEq] at h
    subst h
    exact hb
  | a :: l, b, b2, h, hf, hb => by
    simp only [foldOrPanic] at h
    cases hfa : f b a with
    | none =>
      simp only [hfa] at h
      exact absurd h (by simp)
    | some bmid =>
      simp only [hfa] at h
      exact foldOrPanic_pres f P l bmid b2 h
        (fun b' a' b'' ha' => hf b' a' b'' (List.mem_cons_of_mem _ ha'))
        (hf b a bmid (List.mem_cons_self _ _) hfa hb)

/-- A reconstructed ASG identifier is never the empty string: it
starts with the arn prefix. -/
theorem reconstructAsgID_ne_empty (arn id : String) (h : reconstructAsgID arn = some id) :
    id ≠ "" := by
  simp only [reconstructAsgID] at h
  split at h
  · rw [Option.some.injEq] at h
    subst h
    intro hemp
    have hl := congrArg String.length hemp
    simp only [String.length_append] at hl
    have c1 : ("arn:").length = 4 := by decide
    have c2 : (":autoscaling:").length = 13 := by decide
    have c3 : (":").length = 1 := by decide
    have c4 : ("").length = 0 := by decide
    simp only [c1, c2, c3, c4] at hl
    omega
  · exact absurd h (by simp)

/-- A synthesized transit-gateway identifier is never the empty
string: it contains the joining slash. -/
theorem tgw_id_ne_empty (a b : String) : a ++ "/" ++ b ≠ "" := by
  intro h
  have hl := congrArg String.length h
  simp only [String.length_append] at hl
  have c3 : ("/").length = 1 := by decide
  have c4 : ("").length = 0 := by decide
  simp only [c3, c4] at hl
  omega

/-- One ASG page fold preserves non-nil non-empty IDs. -/
theorem asgPageFold_pres (j : job) (region : String) (page : describeAutoScalingGroupsOutput)
    (acc res : List tagsData) (h : asgPageFold j region page acc = some res)
    (hacc : ∀ r ∈ acc, r.ID ≠ none ∧ r.ID ≠ some "") :
    ∀ r ∈ res, r.ID ≠ none ∧ r.ID ≠ some "" := by
  simp only [asgPageFold] at h
  refine foldOrPanic_pres _ (fun b => ∀ r ∈ b, r.ID ≠ none ∧ r.ID ≠ some "")
    page.AutoScalingGroups acc res h ?_ hacc
  intro b' a b'' _ hf hP
  rw [Option.map_eq_some'] at hf
  obtain ⟨id, hid, hb⟩ := hf
  have hne := reconstructAsgID_ne_empty _ _ hid
  rw [← hb]
  intro r hr
  by_cases hfil : tagsData.filterThroughTags
      { ID := some id, Matcher := none, Tags := a.Tags,
        Service := some j.Type, Region := some region } j.SearchTags = true
  · rw [if_pos hfil] at hr
    rcases List.mem_append.mp hr with hra | hrb
    · exact hP r hra
    · rw [List.mem_singleton] at hrb
      subst hrb
      exact ⟨by simp, by simp [hne]⟩
  · rw [if_neg hfil] at hr
    exact hP r hr

/-- One generic page fold preserves non-nil non-empty IDs when the
page's items all carry a non-nil non-empty ResourceARN. -/
theorem genericPageFold_pres (j : job) (region : String) (page : getResourcesOutput)
    (acc : List tagsData)
    (hpage : ∀ m ∈ page.ResourceTagMappingList, m.ResourceARN ≠ none ∧ m.ResourceARN ≠ some "")
    (hacc : ∀ r ∈ acc, r.ID ≠ none ∧ r.ID ≠ some "") :
    ∀ r ∈ genericPageFold j region page acc, r.ID ≠ none ∧ r.ID ≠ some "" := by
  simp only [genericPageFold]
  refine foldl_pres _ (fun b => ∀ r ∈ b, r.ID ≠ none ∧ r.ID ≠ some "")
    page.ResourceTagMappingList acc ?_ hacc
  intro b' m hm hP r hr
  by_cases hfil : tagsData.filterThroughTags
      { ID := m.ResourceARN, Matcher := none, Tags := m.Tags,
        Service := some j.Type, Region := some region } j.SearchTags = true
  · rw [if_pos hfil] at hr
    rcases List.mem_append.mp hr with hra | hrb
    · exact hP r hra
    · rw [List.mem_singleton] at hrb
      subst hrb
      exact hpage m hm
  · rw [if_neg hfil] at hr
    exact hP r hr

/-- One TGW page fold preserves non-nil non-empty IDs. -/
theorem tgwPageFold_pres (j : job) (region : String)
    (page : describeTransitGatewayAttachmentsOutput) (acc : List tagsData)
    (hacc : ∀ r ∈ acc, r.ID ≠ none ∧ r.ID ≠ some "") :
    ∀ r ∈ tgwPageFold j region page acc, r.ID ≠ none ∧ r.ID ≠ some "" := by
  simp only [tgwPageFold]
  refine foldl_pres _ (fun b => ∀ r ∈ b, r.ID ≠ none ∧ r.ID ≠ some "")
    page.TransitGatewayAttachments acc ?_ hacc
  intro b' t ht hP r hr
  by_cases hfil : tagsData.filterThroughTags
      { ID := some (t.TransitGatewayId ++ "/" ++ t.TransitGatewayAttachmentId),
        Matcher := none, Tags := t.Tags,
        Service := some j.Type, Region := some region } j.SearchTags = true
  · rw [if_pos hfil] at hr
    rcases List.mem_append.mp hr with hra | hrb
    · exact hP r hra
    · rw [List.mem_singleton] at hrb
      subst hrb
      exact ⟨by simp, by simp [tgw_id_ne_empty]⟩
  · rw [if_neg hfil] at hr
    exact hP r hr

/-- A record kept by the enrichment decision keeps its ID. -/
theorem enrichOne_id (items : List restApi) (r r2 : tagsData)
    (h : enrichOne items r = some (some r2)) : r2.ID = r.ID := by
  cases hid : r.ID with
  | none => simp [enrichOne, hid] at h
  | some id =>
    simp only [enrichOne, hid] at h
    by_cases hin : goContains id "/restapis" = true
    · rw [if_pos hin] at h
      cases hseg : (goSplit id '/').get? 2 with
      | none =>
        simp only [hseg] at h
        exact absurd h (by simp)
      | some rid =>
        simp only [hseg] at h
        cases hfm : findMatcher rid r.Matcher items with
        | none =>
          simp only [hfm] at h
          exact absurd h (by simp)
        | some m =>
          simp only [hfm] at h
          cases m with
          | none => simp at h
          | some nm =>
            simp only [Option.some.injEq] at h
            rw [← h]
    · rw [if_neg hin] at h
      simp at h

/-- Every record kept by the enrichment pass originates, with an
unchanged ID, from some input record. -/
theorem apiGatewayFilter_id_subset :
    ∀ (items : List restApi) (rs out : List tagsData),
    apiGatewayFilter items rs = some out →
    ∀ r2 ∈ out, ∃ r ∈ rs, r2.ID = r.ID
  | items, [], out, h => by
    simp only [apiGatewayFilter, Option.some.injEq] at h
    subst h
    intro r2 hr2
    exact absurd hr2 (by simp)
  | items, r :: rs, out, h => by
    simp only [apiGatewayFilter] at h
    cases he : enrichOne items r with
    | none =>
      simp only [he] at h
      exact absurd h (by simp)
    | some o =>
      simp only [he] at h
      cases hrest : apiGatewayFilter items rs with
      | none =>
        simp only [hrest] at h
        exact absurd h (by simp)
      | some rs2 =>
        simp only [hrest] at h
        have ih := apiGatewayFilter_id_subset items rs rs2 hrest
        cases o with
        | none =>
          simp only [Option.some.injEq] at h
          subst h
          intro r2 hr2
          obtain ⟨r', hr', hid⟩ := ih r2 hr2
          exact ⟨r', List.mem_cons_of_mem _ hr', hid⟩
        | some rkept =>
          simp only [Option.some.injEq] at h
          subst h
          intro r2 hr2
          rcases List.mem_cons.mp hr2 with hh | ht
          · subst hh
            exact ⟨r, List.mem_cons_self _ _, enrichOne_id items r r2 he⟩
          · obtain ⟨r', hr', hid⟩ := ih r2 ht
            exact ⟨r', List.mem_cons_of_mem _ hr', hid⟩

/-- C7 (amended): TagRecords from the ASG and TGW paths always
carry a non-nil, non-empty ID; records from the generic path (and
hence from the API-gateway enrichment, which preserves IDs) carry a
non-nil, non-empty ID provided every successfully fetched page item
has a non-nil, non-empty ResourceARN, since the generic path stores
that pointer verbatim. -/
theorem C7_discovery_ids_nonempty :
    (∀ (ifc : tagsInterface) (j : job) (region : String) (out : List tagsData)
       (err : Option String),
       tagsInterface.getTaggedAutoscalingGroups ifc j region = some (out, err) →
       ∀ r ∈ out, r.ID ≠ none ∧ r.ID ≠ some "") ∧
    (∀ (ifc : tagsInterface) (j : job) (region : String),
       ∀ r ∈ (tagsInterface.getTaggedTransitGatewayAttachments ifc j region).1,
       r.ID ≠ none ∧ r.ID ≠ some "") ∧
    (∀ (ifc : tagsInterface) (j : job) (region : String) (out : List tagsData)
       (err : Option String),
       goodGenericArns ifc.client = true →
       tagsInterface.get ifc j region = some (out, err) →
       ∀ r ∈ out, r.ID ≠ none ∧ r.ID ≠ some "") := by
  have hasg : ∀ (ifc : tagsInterface) (j : job) (region : String) (out : List tagsData)
      (err : Option String),
      tagsInterface.getTaggedAutoscalingGroups ifc j region = some (out, err) →
      ∀ r ∈ out, r.ID ≠ none ∧ r.ID ≠ some "" := by
    intro ifc j region out err h
    simp only [tagsInterface.getTaggedAutoscalingGroups] at h
    cases hrun : runPagesP (pagedCallbackP 100 (asgPageFold j region)) ifc.asgClient (0, []) with
    | none =>
      rw [hrun] at h
      exact absurd h (by simp)
    | some st =>
      rw [hrun, Option.map_some', Option.some.injEq, Prod.mk.injEq] at h
      obtain ⟨h1, _⟩ := h
      have hcb : ∀ (s' : Nat × List tagsData) (p : describeAutoScalingGroupsOutput)
          (r' : (Nat × List tagsData) × Bool),
          Except.ok p ∈ ifc.asgClient →
          pagedCallbackP 100 (asgPageFold j region) s' p = some r' →
          (∀ rr ∈ s'.2, rr.ID ≠ none ∧ rr.ID ≠ some "") →
          (∀ rr ∈ r'.1.2, rr.ID ≠ none ∧ rr.ID ≠ some "") := by
        intro s' p r' _ hcall hP
        simp only [pagedCallbackP] at hcall
        cases hfold : asgPageFold j region p s'.2 with
        | none =>
          rw [hfold] at hcall
          exact absurd hcall (by simp)
        | some res =>
          rw [hfold, Option.map_some', Option.some.injEq] at hcall
          rw [← hcall]
          exact asgPageFold_pres j region p s'.2 res hfold hP
      have hpres := runPagesP_pres (pagedCallbackP 100 (asgPageFold j region))
        (fun s => ∀ rr ∈ s.2, rr.ID ≠ none ∧ rr.ID ≠ some "")
        ifc.asgClient (0, []) st hcb (by simp) hrun
      rw [← h1]
      exact hpres
  have htgw : ∀ (ifc : tagsInterface) (j : job) (region : String),
      ∀ r ∈ (tagsInterface.getTaggedTransitGatewayAttachments ifc j region).1,
      r.ID ≠ none ∧ r.ID ≠ some "" := by
    intro ifc j region
    simp only [tagsInterface.getTaggedTransitGatewayAttachments]
    have hcb : ∀ (s' : Nat × List tagsData) (p : describeTransitGatewayAttachmentsOutput),
        Except.ok p ∈ ifc.ec2Client →
        (∀ rr ∈ s'.2, rr.ID ≠ none ∧ rr.ID ≠ some "") →
        (∀ rr ∈ (pagedCallback 100 (tgwPageFold j region) s' p).1.2,
          rr.ID ≠ none ∧ rr.ID ≠ some "") := by
      intro s' p _ hP
      simp only [pagedCallback]
      exact tgwPageFold_pres j region p s'.2 hP
    exact runPages_pres (pagedCallback 100 (tgwPageFold j region))
      (fun s => ∀ rr ∈ s.2, rr.ID ≠ none ∧ rr.ID ≠ some "")
      ifc.ec2Client (0, []) hcb (by simp)
  refine ⟨hasg, htgw, ?_⟩
  intro ifc j region out err hgood h
  by_cases hty1 : j.Type = "asg"
  · simp only [tagsInterface.get] at h
    rw [if_pos hty1] at h
    exact hasg ifc j region out err h
  · by_cases hty2 : j.Type = "tgwa"
    · simp only [tagsInterface.get] at h
      rw [if_neg hty1, if_pos hty2, Option.some.injEq] at h
      have h1 := congrArg Prod.fst h
      simp only at h1
      rw [← h1]
      exact htgw ifc j region
    · simp only [tagsInterface.get] at h
      rw [if_neg hty1, if_neg hty2] at h
      cases hreg : allResourceTypesFilters.find? (fun p => decide (p.1 = j.Type)) with
      | none =>
        simp only [hreg] at h
        exact absurd h (by simp)
      | some fs =>
        simp only [hreg] at h
        have hpages : ∀ p, Except.ok p ∈ ifc.client → ∀ m ∈ p.ResourceTagMappingList,
            m.ResourceARN ≠ none ∧ m.ResourceARN ≠ some "" := by
          intro p hp m hm
          simp only [goodGenericArns, List.all_eq_true] at hgood
          have h1 : p.ResourceTagMappingList.all (fun m2 =>
              match m2.ResourceARN with
              | some s => !(decide (s = ""))
              | none => false) = true := hgood _ hp
          have h2 : (match m.ResourceARN with
              | some s => !(decide (s = ""))
              | none => false) = true := List.all_eq_true.mp h1 m hm
          cases harn : m.ResourceARN with
          | none =>
            rw [harn] at h2
            exact absurd h2 (by simp)
          | some s =>
            rw [harn] at h2
            have hs : s ≠ "" := by simpa using h2
            exact ⟨by simp, by simp [hs]⟩
        have hcb : ∀ (s' : Nat × List tagsData) (p : getResourcesOutput),
            Except.ok p ∈ ifc.client →
            (∀ rr ∈ s'.2, rr.ID ≠ none ∧ rr.ID ≠ some "") →
            (∀ rr ∈ (pagedCallback 100 (genericPageFold j region) s' p).1.2,
              rr.ID ≠ none ∧ rr.ID ≠ some "") := by
          intro s' p hp hP
          simp only [pagedCallback]
          exact genericPageFold_pres j region p s'.2 (hpages p hp) hP
        have hpres := runPages_pres (pagedCallback 100 (genericPageFold j region))
          (fun s => ∀ rr ∈ s.2, rr.ID ≠ none ∧ rr.ID ≠ some "")
          ifc.client (0, []) hcb (by simp)
        by_cases hty3 : j.Type = "apigateway"
        · rw [if_pos hty3] at h
          cases hag2 : (tagsInterface.getTaggedApiGateway ifc).2 with
          | some errG =>
            simp only [hag2, Option.some.injEq, Prod.mk.injEq] at h
            obtain ⟨h1, _⟩ := h
            rw [← h1]
            exact hpres
          | none =>
            simp only [hag2] at h
            cases hfl : apiGatewayFilter (tagsInterface.getTaggedApiGateway ifc).1.Items
                (runPages (pagedCallback 100 (genericPageFold j region)) ifc.client (0, [])).1.2 with
            | none =>
              simp only [hfl] at h
              exact absurd h (by simp)
            | some filtered =>
              simp only [hfl, Option.some.injEq, Prod.mk.injEq] at h
              obtain ⟨h1, _⟩ := h
              rw [← h1]
              intro r hr
              obtain ⟨r0, hr0, hideq⟩ := apiGatewayFilter_id_subset _ _ _ hfl r hr
              rw [hideq]
              exact hpres r0 hr0
        · rw [if_neg hty3, Option.some.injEq, Prod.mk.injEq] at h
          obtain ⟨h1, _⟩ := h
          rw [← h1]
          exact hpres

/-- C7 counterexample to the claim as stated: the generic path
copies a nil ResourceARN pointer verbatim into the record's ID, so a
discovery path can return a record with a nil ID. -/
theorem C7_counterexample :
    tagsInterface.get ⟨[Except.ok ⟨[⟨none, []⟩]⟩], [], [], []⟩ ⟨"ec2", []⟩ "r" =
      some ([⟨none, none, [], some "ec2", some "r"⟩], none) ∧
    (⟨none, none, [], some "ec2", some "r"⟩ : tagsData).ID = none := by
  decide

/-- C7 witness: a well-formed provider page yields a record with a
non-nil, non-empty ID. -/
theorem C7_witness :
    goodGenericArns [Except.ok ⟨[⟨some "arn:x", []⟩]⟩] = true ∧
    tagsInterface.get ⟨[Except.ok ⟨[⟨some "arn:x", []⟩]⟩], [], [], []⟩ ⟨"ec2", []⟩ "r" =
      some ([⟨some "arn:x", none, [], some "ec2", some "r"⟩], none) ∧
    ((⟨some "arn:x", none, [], some "ec2", some "r"⟩ : tagsData).ID ≠ none ∧
     (⟨some "arn:x", none, [], some "ec2", some "r"⟩ : tagsData).ID ≠ some "") :=
  ⟨by decide, by decide,
    C7_discovery_ids_nonempty.2.2 ⟨[Except.ok ⟨[⟨some "arn:x", []⟩]⟩], [], [], []⟩
      ⟨"ec2", []⟩ "r" [⟨some "arn:x", none, [], some "ec2", some "r"⟩] none
      (by decide) (by decide) ⟨some "arn:x", none, [], some "ec2", some "r"⟩
      (by decide)⟩

/-- Lookup after a keyed update, same key. -/
theorem alGet_alSet_self (m : List (String × List String)) (k : String) (v : List String) :
    alGet (alSet m k v) k = v := by
  simp [alGet, alSet]

/-- Filtering out the entries of one key leaves lookups of the other
keys unchanged. -/
theorem find?_filter_ne {β : Type} (k k' : String) (h : k' ≠ k) :
    ∀ (l : List (String × β)),
    (l.filter (fun p => !(decide (p.1 = k)))).find? (fun p => decide (p.1 = k')) =
      l.find? (fun p => decide (p.1 = k'))
  | [] => by simp
  | a :: l => by
    by_cases ha : a.1 = k
    · have h1 : (a :: l).filter (fun p => !(decide (p.1 = k))) =
          l.filter (fun p => !(decide (p.1 = k))) := by simp [ha]
      have hne : ¬(a.1 = k') := by
        intro hh
        rw [hh] at ha
        exact h ha
      have h2 : (a :: l).find? (fun p => decide (p.1 = k')) =
          l.find? (fun p => decide (p.1 = k')) :=
        List.find?_cons_of_neg l (by simp [hne])
      rw [h1, h2, find?_filter_ne k k' h l]
    · have h1 : (a :: l).filter (fun p => !(decide (p.1 = k))) =
          a :: l.filter (fun p => !(decide (p.1 = k))) := by simp [ha]
      rw [h1]
      by_cases ha' : a.1 = k'
      · rw [List.find?_cons_of_pos _ (by simp [ha']),
          List.find?_cons_of_pos _ (by simp [ha'])]
      · rw [List.find?_cons_of_neg _ (by simp [ha']),
          List.find?_cons_of_neg _ (by simp [ha']),
          find?_filter_ne k k' h l]

/-- Lookup after a keyed update, different key. -/
theorem alGet_alSet_ne (m : List (String × List String)) (k k' : String) (v : List String)
    (h : k' ≠ k) : alGet (alSet m k v) k' = alGet m k' := by
  have hne : ¬(k = k') := fun hh => h hh.symm
  simp [alGet, alSet, hne, find?_filter_ne k k' h m]

/-- Membership in the per-service key union after folding one
record's tags into it. -/
theorem tagsFold_mem (svc svc2 k : String) :
    ∀ (tags : List tag) (m : List (String × List String)),
    (k ∈ alGet (tags.foldl (fun m2 t =>
        if stringInSlice t.Key (alGet m2 svc) then m2
        else alSet m2 svc (alGet m2 svc ++ [t.Key])) m) svc2 ↔
      k ∈ alGet m svc2 ∨ (svc = svc2 ∧ ∃ t ∈ tags, t.Key = k))
  | [], m => by simp
  | t :: tags, m => by
    rw [List.foldl_cons]
    by_cases hin : stringInSlice t.Key (alGet m svc) = true
    · rw [if_pos hin, tagsFold_mem svc svc2 k tags m]
      constructor
      · rintro (hk | ⟨hsv, t', ht', hk⟩)
        · exact Or.inl hk
        · exact Or.inr ⟨hsv, t', List.mem_cons_of_mem _ ht', hk⟩
      · rintro (hk | ⟨hsv, t', ht', hk⟩)
        · exact Or.inl hk
        · rcases List.mem_cons.mp ht' with heq | ht2
          · left
            subst hsv
            rw [← hk, heq]
            simpa [stringInSlice] using hin
          · exact Or.inr ⟨hsv, t', ht2, hk⟩
    · rw [if_neg hin, tagsFold_mem svc svc2 k tags (alSet m svc (alGet m svc ++ [t.Key]))]
      by_cases hsv : svc = svc2
      · subst hsv
        rw [alGet_alSet_self]
        simp only [List.mem_append, List.mem_singleton]
        constructor
        · rintro ((hk | hk) | ⟨_, t', ht', hk⟩)
          · exact Or.inl hk
          · exact Or.inr ⟨trivial, t, List.mem_cons_self _ _, hk.symm⟩
          · exact Or.inr ⟨trivial, t', List.mem_cons_of_mem _ ht', hk⟩
        · rintro (hk | ⟨_, t', ht', hk⟩)
          · exact Or.inl (Or.inl hk)
          · rcases List.mem_cons.mp ht' with heq | ht2
            · refine Or.inl (Or.inr ?_)
              rw [← hk, heq]
            · exact Or.inr ⟨trivial, t', ht2, hk⟩
      · rw [alGet_alSet_ne _ _ _ _ (fun hh => hsv hh.symm)]
        simp [hsv]

/-- Membership in the final per-service key union built by pass 1,
relative to an arbitrary starting union. -/
theorem buildTagList_from_mem (svc2 k : String) :
    ∀ (td : List tagsData) (m L : List (String × List String)),
    foldOrPanic buildStep td m = some L →
    (k ∈ alGet L svc2 ↔ k ∈ alGet m svc2 ∨
      ∃ d ∈ td, d.Service = some svc2 ∧ ∃ t ∈ d.Tags, t.Key = k)
  | [], m, L, h => by
    simp only [foldOrPanic, Option.some.injEq] at h
    subst h
    simp
  | d :: td, m, L, h => by
    simp only [foldOrPanic] at h
    cases hstep : buildStep m d with
    | none =>
      rw [hstep] at h
      exact absurd h (by simp)
    | some m2 =>
      rw [hstep] at h
      have ih := buildTagList_from_mem svc2 k td m2 L h
      cases hsvc : d.Service with
      | none => simp [buildStep, hsvc] at hstep
      | some svc =>
        simp only [buildStep, hsvc, Option.some.injEq] at hstep
        subst hstep
        rw [ih, tagsFold_mem svc svc2 k d.Tags m]
        constructor
        · rintro ((hk | ⟨hsv, t', ht', hk⟩) | ⟨d', hd', hsv', t', ht', hk⟩)
          · exact Or.inl hk
          · exact Or.inr ⟨d, List.mem_cons_self _ _, by rw [hsvc, hsv], t', ht', hk⟩
          · exact Or.inr ⟨d', List.mem_cons_of_mem _ hd', hsv', t', ht', hk⟩
        · rintro (hk | ⟨d', hd', hsv', t', ht', hk⟩)
          · exact Or.inl (Or.inl hk)
          · rcases List.mem_cons.mp hd' with heq | hd2
            · have hsv2 : some svc = some svc2 := by rw [← hsvc, ← heq, hsv']
              refine Or.inl (Or.inr ⟨Option.some_inj.mp hsv2, t', ?_, hk⟩)
              rw [heq] at ht'
              exact ht'
            · exact Or.inr ⟨d', hd2, hsv', t', ht', hk⟩

/-- Membership in the per-service key union built by pass 1: exactly
the tag keys occurring on some record of that service. -/
theorem buildTagList_mem (td : List tagsData) (TL : List (String × List String))
    (svc k : String) (h : buildTagList td = some TL) :
    k ∈ alGet TL svc ↔ ∃ d ∈ td, d.Service = some svc ∧ ∃ t ∈ d.Tags, t.Key = k := by
  have hh := buildTagList_from_mem svc k td [] TL h
  simpa [alGet] using hh

/-- Shape of the labels emitted for one record of a successful
materialization. -/
theorem migrate_labels_shape (td : List tagsData) (out : List PrometheusMetric)
    (h : migrateTagsToPrometheus td = some out) (pr : tagsData × PrometheusMetric)
    (hpr : pr ∈ td.zip out) (svc : String) (hsvc : pr.1.Service = some svc) :
    ∃ TL id, buildTagList td = some TL ∧ pr.1.ID = some id ∧
      pr.2.labels = ("name", id) :: (alGet TL svc).map
        (fun e => ("tag_" ++ promStringTag e, tagValue pr.1.Tags e)) := by
  cases hTL : buildTagList td with
  | none =>
    simp only [migrateTagsToPrometheus, hTL] at h
    exact absurd h (by simp)
  | some TL =>
    simp only [migrateTagsToPrometheus, hTL] at h
    have hsound := (mapOrPanic_sound (metricForRecord TL) td out h).2 pr hpr
    cases hi : pr.1.ID with
    | none => simp [metricForRecord, hsvc, hi] at hsound
    | some id =>
      rw [metricForRecord_some TL pr.1 svc id hsvc hi] at hsound
      rw [Option.some.injEq] at hsound
      exact ⟨TL, id, rfl, rfl, by rw [← hsound]⟩

/-- Prefixed tag labels are injective in the normalized key. -/
theorem tag_label_inj (a b : String) (h : ("tag_" ++ a) = ("tag_" ++ b)) : a = b := by
  have hd := congrArg String.data h
  simp only [String.data_append] at hd
  exact String.ext (List.append_cancel_left hd)

/-- The inner value fold keeps its seed when no tag key matches. -/
theorem tagValue_foldl_none (k : String) :
    ∀ (tags : List tag) (v : String), (∀ t ∈ tags, t.Key ≠ k) →
    tags.foldl (fun v2 t => if k = t.Key then t.Value else v2) v = v
  | [], _, _ => rfl
  | t :: tags, v, h => by
    rw [List.foldl_cons, if_neg (fun hh => h t (List.mem_cons_self _ _) hh.symm)]
    exact tagValue_foldl_none k tags v (fun t' ht' => h t' (List.mem_cons_of_mem _ ht'))

/-- A record lacking a key gets the empty string as its value. -/
theorem tagValue_eq_empty (tags : List tag) (k : String) (h : ∀ t ∈ tags, t.Key ≠ k) :
    tagValue tags k = "" :=
  tagValue_foldl_none k tags "" h

/-- find? returns the distinguished element when it is present and
every satisfying element equals it. -/
theorem find?_eq_of_mem_of_all {α : Type} (p : α → Bool) (k : α) :
    ∀ (l : List α), k ∈ l → p k = true → (∀ x ∈ l, p x = true → x = k) →
    l.find? p = some k
  | [], hk, _, _ => absurd hk (by simp)
  | a :: l, hk, hp, huniq => by
    by_cases hpa : p a = true
    · rw [List.find?_cons_of_pos _ hpa, huniq a (List.mem_cons_self _ _) hpa]
    · rw [List.find?_cons_of_neg _ (by simp [hpa])]
      have hk2 : k ∈ l := by
        rcases List.mem_cons.mp hk with heq | h2
        · subst heq
          exact absurd hp hpa
        · exact h2
      exact find?_eq_of_mem_of_all p k l hk2 hp
        (fun x hx => huniq x (List.mem_cons_of_mem _ hx))

/-- C6 (amended): every emitted metric of a service carries exactly
the label keys name and tag_(normalized key) for the keys in that
service's union; and a record lacking a union key k whose normalized
form no other key of the service's records shares carries the empty
string under tag_(normalized k).  (When two distinct keys of a
service normalize to the same label, the later union entry
overwrites the earlier one, which is what the counterexample
exhibits.) -/
theorem C6_label_schema (td : List tagsData) (out : List PrometheusMetric)
    (h : migrateTagsToPrometheus td = some out) :
    (∀ pr ∈ td.zip out, ∀ svc, pr.1.Service = some svc →
      ∀ s, (s ∈ lkeys pr.2.labels ↔
        (s = "name" ∨ ∃ d ∈ td, d.Service = some svc ∧
          ∃ t ∈ d.Tags, s = "tag_" ++ promStringTag t.Key))) ∧
    (∀ pr ∈ td.zip out, ∀ svc, pr.1.Service = some svc →
      ∀ k, (∃ d ∈ td, d.Service = some svc ∧ ∃ t ∈ d.Tags, t.Key = k) →
        (∀ t ∈ pr.1.Tags, t.Key ≠ k) →
        (∀ d ∈ td, d.Service = some svc → ∀ t ∈ d.Tags,
          promStringTag t.Key = promStringTag k → t.Key = k) →
        lget pr.2.labels ("tag_" ++ promStringTag k) = some "") := by
  constructor
  · intro pr hpr svc hsvc s
    obtain ⟨TL, id, hTL, hid, hlab⟩ := migrate_labels_shape td out h pr hpr svc hsvc
    rw [hlab]
    simp only [lkeys, List.map_cons, List.map_map, List.mem_dedup, List.mem_cons,
      List.mem_map, Function.comp]
    constructor
    · rintro (rfl | ⟨e, he, hfe⟩)
      · exact Or.inl rfl
      · obtain ⟨d, hd, hsvc', t, ht, htk⟩ := (buildTagList_mem td TL svc e hTL).mp he
        refine Or.inr ⟨d, hd, hsvc', t, ht, ?_⟩
        rw [← hfe, htk]
    · rintro (rfl | ⟨d, hd, hsvc', t, ht, hs⟩)
      · exact Or.inl rfl
      · refine Or.inr ⟨t.Key,
          (buildTagList_mem td TL svc t.Key hTL).mpr ⟨d, hd, hsvc', t, ht, rfl⟩, hs.symm⟩
  · intro pr hpr svc hsvc k hkuni hlacks huniq
    obtain ⟨TL, id, hTL, hid, hlab⟩ := migrate_labels_shape td out h pr hpr svc hsvc
    rw [hlab]
    have hkmem : k ∈ alGet TL svc := (buildTagList_mem td TL svc k hTL).mpr hkuni
    simp only [lget, List.reverse_cons, List.find?_append]
    have hfind : (((alGet TL svc).map
        (fun e => ("tag_" ++ promStringTag e, tagValue pr.1.Tags e))).reverse).find?
        (fun p => decide (p.1 = "tag_" ++ promStringTag k)) =
        some ("tag_" ++ promStringTag k, tagValue pr.1.Tags k) := by
      rw [List.reverse_map, List.find?_map]
      have hmain : ((alGet TL svc).reverse).find?
          ((fun p => decide (p.1 = "tag_" ++ promStringTag k)) ∘
            (fun e => ("tag_" ++ promStringTag e, tagValue pr.1.Tags e))) = some k := by
        apply find?_eq_of_mem_of_all
        · rw [List.mem_reverse]
          exact hkmem
        · simp [Function.comp]
        · intro x hx hpx
          rw [List.mem_reverse] at hx
          simp only [Function.comp, decide_eq_true_eq] at hpx
          have hnx := tag_label_inj _ _ hpx
          obtain ⟨d, hd, hsvc', t, ht, htk⟩ := (buildTagList_mem td TL svc x hTL).mp hx
          have hres := huniq d hd hsvc' t ht (by rw [htk, hnx])
          rw [← htk]
          exact hres
      rw [hmain, Option.map_some']
    rw [hfind, Option.or_some, Option.map_some']
    rw [tagValue_eq_empty pr.1.Tags k hlacks]

/-- C6 counterexample to the claim as stated: the keys a-b and a_b
of one service normalize to the same label tag_a_b, and the second
record, which lacks the key a-b of its service's union, carries the
value w (not the empty string) under that label, because the later
union entry a_b overwrote the default fill. -/
theorem C6_counterexample :
    migrateTagsToPrometheus
      [⟨some "i1", none, [⟨"a-b", "v"⟩], some "s", some "r"⟩,
       ⟨some "i2", none, [⟨"a_b", "w"⟩], some "s", some "r"⟩] =
      some [⟨"aws_s_info", [("name", "i1"), ("tag_a_b", "v"), ("tag_a_b", "")], 0⟩,
            ⟨"aws_s_info", [("name", "i2"), ("tag_a_b", ""), ("tag_a_b", "w")], 0⟩] ∧
    promStringTag "a-b" = "a_b" ∧
    (∀ t ∈ ([⟨"a_b", "w"⟩] : List tag), t.Key ≠ "a-b") ∧
    lget [("name", "i2"), ("tag_a_b", ""), ("tag_a_b", "w")]
      ("tag_" ++ promStringTag "a-b") = some "w" := by
  decide

/-- C6 witness: a collision-free batch where the second record lacks
the union key k and carries the empty default under tag_k. -/
theorem C6_witness :
    migrateTagsToPrometheus
      [⟨some "i1", none, [⟨"k", "v"⟩], some "s", some "r"⟩,
       ⟨some "i2", none, [], some "s", some "r"⟩] =
      some [⟨"aws_s_info", [("name", "i1"), ("tag_k", "v")], 0⟩,
            ⟨"aws_s_info", [("name", "i2"), ("tag_k", "")], 0⟩] ∧
    (("tag_" ++ promStringTag "k") ∈
      lkeys [("name", "i2"), ("tag_k", "")] ) ∧
    lget [("name", "i2"), ("tag_k", "")] ("tag_" ++ promStringTag "k") = some "" :=
  ⟨by decide,
    (C6_label_schema
      [⟨some "i1", none, [⟨"k", "v"⟩], some "s", some "r"⟩,
       ⟨some "i2", none, [], some "s", some "r"⟩]
      [⟨"aws_s_info", [("name", "i1"), ("tag_k", "v")], 0⟩,
       ⟨"aws_s_info", [("name", "i2"), ("tag_k", "")], 0⟩] (by decide)).1
      (⟨some "i2", none, [], some "s", some "r"⟩,
        ⟨"aws_s_info", [("name", "i2"), ("tag_k", "")], 0⟩)
      (by decide) "s" (by decide) ("tag_" ++ promStringTag "k") |>.mpr
      (Or.inr ⟨⟨some "i1", none, [⟨"k", "v"⟩], some "s", some "r"⟩, by decide, by decide,
        ⟨"k", "v"⟩, by decide, by decide⟩),
    (C6_label_schema
      [⟨some "i1", none, [⟨"k", "v"⟩], some "s", some "r"⟩,
       ⟨some "i2", none, [], some "s", some "r"⟩]
      [⟨"aws_s_info", [("name", "i1"), ("tag_k", "v")], 0⟩,
       ⟨"aws_s_info", [("name", "i2"), ("tag_k", "")], 0⟩] (by decide)).2
      (⟨some "i2", none, [], some "s", some "r"⟩,
        ⟨"aws_s_info", [("name", "i2"), ("tag_k", "")], 0⟩)
      (by decide) "s" (by decide) "k"
      ⟨⟨some "i1", none, [⟨"k", "v"⟩], some "s", some "r"⟩, by decide, by decide,
        ⟨"k", "v"⟩, by decide, by decide⟩
      (by decide) (by decide)⟩
